import Mathlib

/-!
Shallow embedding of the team/player registry bot (`src/bot.py`).

The bot stores two relations in Postgres:
  teams(name PK, owner_roblox, manager_roblox?, logo_asset_id?, division?)
  players(roblox_user PK, team_name FK -> teams(name), rank, updated_at)
and mutates them through the slash commands `setteam`, `deleteteam`,
`rankplayer`, `unrank`, plus the startup bootstrap `init_db`; it reads them
through `teamview`, `playerinfo`, the HTTP `player` endpoint, the
`leaderboard` endpoint and the autocomplete helper `fetch_team_names_like`.

Strings: Python `str.lower()` / `str.strip()` are modelled character-wise on
`String.data` (`pyLower`, `pyStrip`); this is faithful for ASCII data.
SQL `LIKE` (with `%`, `_` and backslash escapes) is modelled by `sqlLike`.
SQL `ORDER BY name` is modelled by `List.insertionSort (· ≤ ·)` on `String`
(codepoint order, i.e. the C collation).  A `fetchrow`/`fetchval` on a query
without `ORDER BY` is modelled as the first matching row in insertion order.
-/

namespace PlayerBot

/-- Python `str.lower()`: character-wise ASCII lowering. -/
def pyLower (s : String) : String := ⟨s.data.map Char.toLower⟩

/-- Drop leading and trailing whitespace from a character list. -/
def stripL (l : List Char) : List Char :=
  ((l.dropWhile Char.isWhitespace).reverse.dropWhile Char.isWhitespace).reverse

/-- Python `str.strip()`: drop leading and trailing whitespace. -/
def pyStrip (s : String) : String := ⟨stripL s.data⟩

/-- Does `p` occur at the start of `s`? -/
def prefixB : List Char → List Char → Bool
  | [], _ => true
  | _ :: _, [] => false
  | a :: p, b :: s => a == b && prefixB p s

/-- Does `p` occur as a contiguous substring of `s`? -/
def substrB : List Char → List Char → Bool
  | p, [] => p.isEmpty
  | p, c :: s => prefixB p (c :: s) || substrB p s

/-- All suffixes of a character list, longest first. -/
def suffixes : List Char → List (List Char)
  | [] => [[]]
  | c :: s => (c :: s) :: suffixes s

/-- SQL `LIKE` pattern matching: `%` matches any string (tried as every
suffix of the text), `_` any single character, a backslash escapes the
following pattern character.  (Postgres rejects a pattern ending in a lone
escape character; that case is modelled as a non-match, and never arises
below.) -/
def sqlLike : List Char → List Char → Bool
  | [], s => s.isEmpty
  | '%' :: p, s => (suffixes s).any (fun t => sqlLike p t)
  | '_' :: _, [] => false
  | '_' :: p, _ :: s1 => sqlLike p s1
  | '\\' :: _ :: _, [] => false
  | '\\' :: a :: p, b :: s1 => a == b && sqlLike p s1
  | '\\' :: [], _ => false
  | _ :: _, [] => false
  | a :: p, b :: s1 => a == b && sqlLike p s1

/-- A `LIKE` pattern fragment with no wildcard and no escape character. -/
def cleanPat (q : List Char) : Prop := ∀ c ∈ q, c ≠ '%' ∧ c ≠ '_' ∧ c ≠ '\\'

instance (q : List Char) : Decidable (cleanPat q) := by
  unfold cleanPat
  infer_instance

/-- Lexicographic comparison of character lists by codepoint (the C
collation Postgres uses for `ORDER BY name` absent a locale). -/
def lexLe : List Char → List Char → Bool
  | [], _ => true
  | _ :: _, [] => false
  | a :: s, b :: t => if a < b then true else if b < a then false else lexLe s t

/-- Lexicographic order on strings, computably. -/
def strLe (a b : String) : Bool := lexLe a.data b.data

/-- The reserved sentinel team name (`FREE_AGENT_TEAM` in the source). -/
def FREE_AGENT_TEAM : String := "Free Agent"

/-- A row of the `teams` relation. -/
structure Team where
  name : String
  owner_roblox : String
  manager_roblox : Option String
  logo_asset_id : Option Int
  division : Option String
deriving DecidableEq, Repr

/-- A row of the `players` relation.  Every writer in the source stores a
string in each column, so the nullable `rank` column is modelled as a
`String` (Python falsiness of `""` is modelled where the source uses
`or`-coalescing). -/
structure Player where
  roblox_user : String
  team_name : String
  rank : String
  updated_at : String
deriving DecidableEq, Repr

/-- The persisted store: both relations, rows in insertion order. -/
structure Store where
  teams : List Team
  players : List Player
deriving DecidableEq, Repr

/-- SQL `INSERT ... ON CONFLICT (name) DO UPDATE`: overwrite the row with the
same primary key in place, or append a fresh row. -/
def upsertTeam (ts : List Team) (t : Team) : List Team :=
  if ts.any (fun r => r.name == t.name) then
    ts.map (fun r => if r.name == t.name then t else r)
  else ts ++ [t]

/-- SQL `INSERT ... ON CONFLICT (roblox_user) DO UPDATE` on `players`. -/
def upsertPlayer (ps : List Player) (p : Player) : List Player :=
  if ps.any (fun r => r.roblox_user == p.roblox_user) then
    ps.map (fun r => if r.roblox_user == p.roblox_user then p else r)
  else ps ++ [p]

/-- The `INSERT ... ON CONFLICT (name) DO NOTHING` bootstrap of the sentinel
team performed by `init_db`. -/
def ensure_free_agent (ts : List Team) : List Team :=
  if ts.any (fun r => r.name == FREE_AGENT_TEAM) then ts
  else ts ++ [⟨FREE_AGENT_TEAM, "System", none, none, some "None"⟩]

/-- Startup bootstrap `init_db` as a store operation (table creation aside,
its one mutation is the sentinel upsert). -/
def init_db (s : Store) : Store :=
  { s with teams := ensure_free_agent s.teams }

/-- Outcome of the `setteam` command. -/
inductive SetTeamResult where
  | reserved
  | saved
deriving DecidableEq, Repr

/-- Python `(division or "None").strip() or "None"` from `setteam`. -/
def div_value (division : Option String) : String :=
  let x := match division with
    | none => "None"
    | some d => if d = "" then "None" else d
  let y := pyStrip x
  if y = "" then "None" else y

/-- The `setteam` command (`createOrUpdateTeam`): reject the sentinel name
after `strip().lower()`, otherwise upsert the team row. -/
def setteam (s : Store) (team owner : String) (manager : Option String)
    (logo_asset_id : Option Int) (division : Option String) :
    SetTeamResult × Store :=
  if pyLower (pyStrip team) == pyLower FREE_AGENT_TEAM then
    (.reserved, s)
  else
    let row : Team := ⟨team, owner, manager, logo_asset_id, some (div_value division)⟩
    (.saved, { s with teams := upsertTeam s.teams row })

/-- Outcome of the `deleteteam` command. -/
inductive DeleteResult where
  | reserved
  | hasPlayers
  | notFound
  | deleted
deriving DecidableEq, Repr

/-- The `deleteteam` command: reject the sentinel name after
`strip().lower()`; refuse while any player row references the name (exact
match); otherwise run the `DELETE` and report not-found when the status
string `DELETE n` ends in the digit `0` (`n % 10 = 0`; the primary key keeps
`n` at most 1). -/
def deleteteam (s : Store) (teamname : String) : DeleteResult × Store :=
  if pyLower (pyStrip teamname) == pyLower FREE_AGENT_TEAM then
    (.reserved, s)
  else
    let count := s.players.countP (fun p => p.team_name == teamname)
    if count > 0 then (.hasPlayers, s)
    else
      let deleted := s.teams.countP (fun t => t.name == teamname)
      let s1 : Store := { s with teams := s.teams.filter (fun t => !(t.name == teamname)) }
      if deleted % 10 == 0 then (.notFound, s1) else (.deleted, s1)

/-- Outcome of the `rankplayer` command.  `useUnrank` is the reply telling
the caller to use `/unrank` for the sentinel team; the other constructors
mirror the three success descriptions and the unknown-team refusal. -/
inductive RankResult where
  | useUnrank
  | unknownTeam
  | moved (old : String)
  | updated
  | added
deriving DecidableEq, Repr

/-- The `rankplayer` command (`assign`): reject the sentinel team after
`strip().lower()`; fail when no team row has exactly the given name; else
fetch the previous `team_name` (exact handle match), upsert the player row,
and report moved/updated/added from the previous value, where Python
truthiness sends both a missing row and an empty previous name to `added`
and the moved/updated split compares the names case-insensitively. -/
def rankplayer (s : Store) (robloxuser team rank now : String) :
    RankResult × Store :=
  if pyLower (pyStrip team) == pyLower FREE_AGENT_TEAM then
    (.useUnrank, s)
  else if !(s.teams.any (fun t => t.name == team)) then
    (.unknownTeam, s)
  else
    let old_team := (s.players.find? (fun p => p.roblox_user == robloxuser)).map Player.team_name
    let s1 : Store := { s with players := upsertPlayer s.players ⟨robloxuser, team, rank, now⟩ }
    let res : RankResult :=
      match old_team with
      | some o =>
        if o ≠ "" then
          (if pyLower o ≠ pyLower team then .moved o else .updated)
        else .added
      | none => .added
    (res, s1)

/-- The `unrank` command (`unassign`): upsert the player row onto the
sentinel team.  The `players.team_name` foreign key makes the database
reject the write when no `Free Agent` team row exists; that rejection is
modelled as `none` (transaction aborted, store unchanged). -/
def unrank (s : Store) (robloxuser now : String) : Option Store :=
  if s.teams.any (fun t => t.name == FREE_AGENT_TEAM) then
    some { s with players := upsertPlayer s.players ⟨robloxuser, FREE_AGENT_TEAM, "Free Agent", now⟩ }
  else none

/-- The roster and attributes shown by `teamview`. -/
structure TeamView where
  owner_roblox : String
  manager_roblox : Option String
  logo_asset_id : Option Int
  division : Option String
  players : List (String × String)
deriving DecidableEq, Repr

/-- The `teamview` command: exact-name team lookup, `NotFound` as `none`,
roster ordered by `LOWER(roblox_user)`. -/
def teamview (s : Store) (teamname : String) : Option TeamView :=
  (s.teams.find? (fun t => t.name == teamname)).map fun t =>
    { owner_roblox := t.owner_roblox
      manager_roblox := t.manager_roblox
      logo_asset_id := t.logo_asset_id
      division := t.division
      players :=
        (((s.players.filter (fun p => p.team_name == teamname)).map
            (fun p => (p.roblox_user, p.rank))).insertionSort
          (fun a b => pyLower a.1 ≤ pyLower b.1)) }

/-- The data derived by the `playerinfo` command for its reply embed. -/
structure PlayerView where
  team_name : String
  rank_raw : String
  rank_norm : String
  updated : String
  division : String
  team_owner_id : String
  manager_status : Bool
  owner_status : Bool
  staff_status : Bool
  show_team_owner : Bool
deriving DecidableEq, Repr

/-- The fields `playerinfo` computes from a player row joined (left) with
its team row, mirroring each `or`-coalescing of the source. -/
def viewOf (s : Store) (p : Player) : PlayerView :=
  let t? := s.teams.find? (fun t => t.name == p.team_name)
  let team_name := if p.team_name = "" then FREE_AGENT_TEAM else p.team_name
  let rank_raw := if p.rank = "" then "None" else p.rank
  let rank_norm := pyLower (pyStrip rank_raw)
  { team_name := team_name
    rank_raw := rank_raw
    rank_norm := rank_norm
    updated := if p.updated_at = "" then "Unknown" else p.updated_at
    division :=
      match t? with
      | some t => match t.division with
                  | some d => if d = "" then "None" else d
                  | none => "None"
      | none => "None"
    team_owner_id :=
      match t? with
      | some t => if t.owner_roblox = "" then "Unknown" else t.owner_roblox
      | none => "Unknown"
    manager_status := rank_norm == "manager"
    owner_status := rank_norm == "owner"
    staff_status := rank_norm == "staff" || rank_norm == "owner" || rank_norm == "admin"
    show_team_owner :=
      !(pyLower team_name == pyLower FREE_AGENT_TEAM) &&
        (rank_norm == "manager" || rank_norm == "owner") }

/-- The `playerinfo` command (`viewPlayer`): case-insensitive handle lookup
(first matching row), `none` when no row matches. -/
def playerinfo (s : Store) (robloxuser : String) : Option PlayerView :=
  (s.players.find? (fun p => pyLower p.roblox_user == pyLower robloxuser)).map (viewOf s)

/-- The JSON body of the HTTP `GET /player/{roblox_user}` endpoint. -/
structure PlayerApi where
  player : String
  team : String
  rank : String
  updated_at : String
  logo : Option Int
  division : String
deriving DecidableEq, Repr

/-- The HTTP player endpoint: case-insensitive handle lookup (first matching
row), raw row fields except the `division or "None"` coalescing. -/
def player_api (s : Store) (robloxuser : String) : Option PlayerApi :=
  (s.players.find? (fun p => pyLower p.roblox_user == pyLower robloxuser)).map fun p =>
    let t? := s.teams.find? (fun t => t.name == p.team_name)
    { player := p.roblox_user
      team := p.team_name
      rank := p.rank
      updated_at := p.updated_at
      logo := match t? with
              | some t => t.logo_asset_id
              | none => none
      division :=
        match t? with
        | some t => match t.division with
                    | some d => if d = "" then "None" else d
                    | none => "None"
        | none => "None" }

/-- The autocomplete helper `fetch_team_names_like` (`searchTeamNames`):
strip and lower the pattern, keep the teams whose lowered name matches the
`LIKE` pattern `%pattern%` (excluding the exact sentinel name unless
`include_free_agent`), order by name, return at most 25. -/
def fetch_team_names_like (s : Store) (current : String)
    (include_free_agent : Bool) : List String :=
  (((s.teams.filter (fun t =>
      (include_free_agent || !(t.name == FREE_AGENT_TEAM)) &&
        sqlLike ('%' :: ((pyLower (pyStrip current)).data ++ ['%']))
          (pyLower t.name).data)).map
    Team.name).insertionSort (fun a b => strLe a b = true)).take 25

/-- The sentinel team row as created by the bootstrap. -/
def sentinelRow : Team := ⟨FREE_AGENT_TEAM, "System", none, none, some "None"⟩

/-- The two registry invariants: every player row references an existing
team row, and the sentinel team row named "Free Agent" exists. -/
def Inv (s : Store) : Prop :=
  (∀ p ∈ s.players, ∃ t ∈ s.teams, t.name = p.team_name) ∧
  (∃ t ∈ s.teams, t.name = FREE_AGENT_TEAM)

instance (s : Store) : Decidable (Inv s) := by
  unfold Inv
  infer_instance

/-! Helper lemmas about the string model. -/

theorem toNat_ofNat_valid (n : Nat) (h : n < 55296) : (Char.ofNat n).toNat = n := by
  unfold Char.ofNat
  rw [dif_pos (Or.inl h)]
  simp [Char.ofNatAux, Char.toNat, UInt32.ofNat', UInt32.toNat]

/-- ASCII lowering never turns a character into or out of whitespace. -/
theorem isWhitespace_toLower (c : Char) : (Char.toLower c).isWhitespace = c.isWhitespace := by
  unfold Char.toLower
  simp only []
  split
  · rename_i h
    have h2 : (Char.ofNat (c.toNat + 32)).toNat = c.toNat + 32 :=
      toNat_ofNat_valid _ (by omega)
    have key : ∀ d : Char, Char.ofNat (c.toNat + 32) = d → c.toNat + 32 = d.toNat := by
      intro d he
      rw [← he, h2]
    have hl : (Char.ofNat (c.toNat + 32)).isWhitespace = false := by
      simp only [Char.isWhitespace, Bool.or_eq_false_iff, decide_eq_false_iff_not]
      refine ⟨⟨⟨?_, ?_⟩, ?_⟩, ?_⟩ <;>
        · intro he
          have h3 := key _ he
          have w1 : Char.toNat ' ' = 32 := by decide
          have w2 : Char.toNat '\t' = 9 := by decide
          have w3 : Char.toNat '\r' = 13 := by decide
          have w4 : Char.toNat '\n' = 10 := by decide
          omega
    have hr : c.isWhitespace = false := by
      simp only [Char.isWhitespace, Bool.or_eq_false_iff, decide_eq_false_iff_not]
      refine ⟨⟨⟨?_, ?_⟩, ?_⟩, ?_⟩ <;>
        · intro he
          subst he
          exact absurd h (by decide)
    rw [hl, hr]
  · rfl

theorem stripL_map_toLower (l : List Char) :
    stripL (l.map Char.toLower) = (stripL l).map Char.toLower := by
  have hws : (Char.isWhitespace ∘ Char.toLower) = Char.isWhitespace :=
    funext isWhitespace_toLower
  unfold stripL
  rw [List.dropWhile_map, hws, ← List.map_reverse, List.dropWhile_map, hws, ← List.map_reverse]

/-- Python `strip` and `lower` commute. -/
theorem pyStrip_pyLower (s : String) : pyStrip (pyLower s) = pyLower (pyStrip s) := by
  simp only [pyStrip, pyLower]
  exact congrArg String.mk (stripL_map_toLower s.data)

/-! Helper lemmas about the store operations. -/

theorem mem_name_upsertTeam (ts : List Team) (t : Team) (n : String)
    (h : ∃ r ∈ ts, r.name = n) : ∃ r ∈ upsertTeam ts t, r.name = n := by
  obtain ⟨r, hr, hrn⟩ := h
  unfold upsertTeam
  split
  · refine ⟨if r.name == t.name then t else r, List.mem_map_of_mem _ hr, ?_⟩
    by_cases hb : r.name = t.name
    · simp [hb]
      rw [← hb, hrn]
    · simp [hb]
      exact hrn
  · exact ⟨r, List.mem_append_left _ hr, hrn⟩

theorem mem_upsertPlayer (ps : List Player) (x p : Player)
    (h : p ∈ upsertPlayer ps x) : p = x ∨ p ∈ ps := by
  unfold upsertPlayer at h
  split at h
  · obtain ⟨r, hr, hrr⟩ := List.mem_map.1 h
    by_cases hb : r.roblox_user = x.roblox_user
    · left
      simp [hb] at hrr
      exact hrr.symm
    · right
      simp [hb] at hrr
      rw [← hrr]
      exact hr
  · rcases List.mem_append.1 h with h1 | h1
    · right; exact h1
    · left; simpa using h1

theorem mem_name_ensure_free_agent (ts : List Team) (n : String)
    (h : ∃ r ∈ ts, r.name = n) : ∃ r ∈ ensure_free_agent ts, r.name = n := by
  obtain ⟨r, hr, hrn⟩ := h
  unfold ensure_free_agent
  split
  · exact ⟨r, hr, hrn⟩
  · exact ⟨r, List.mem_append_left _ hr, hrn⟩

theorem sentinel_mem_ensure_free_agent (ts : List Team) :
    ∃ r ∈ ensure_free_agent ts, r.name = FREE_AGENT_TEAM := by
  unfold ensure_free_agent
  split
  · rename_i h
    simp only [List.any_eq_true, beq_iff_eq] at h
    exact h
  · exact ⟨⟨FREE_AGENT_TEAM, "System", none, none, some "None"⟩,
      List.mem_append_right _ (List.mem_singleton.2 rfl), rfl⟩

/-- The `strip().lower()` sentinel guard fires on every case variant of the
sentinel name. -/
theorem guard_of_ci (name : String) (h : pyLower name = pyLower FREE_AGENT_TEAM) :
    (pyLower (pyStrip name) == pyLower FREE_AGENT_TEAM) = true := by
  rw [← pyStrip_pyLower, h]
  decide

/-- C2: for every name equal to "Free Agent" up to letter case,
`setteam` (createOrUpdateTeam) and `deleteteam` both fail with the reserved
reply and leave the store unchanged. -/
theorem C2_sentinel_name_reserved (s : Store) (name owner : String)
    (manager : Option String) (logo : Option Int) (division : Option String)
    (h : pyLower name = pyLower FREE_AGENT_TEAM) :
    setteam s name owner manager logo division = (.reserved, s) ∧
    deleteteam s name = (.reserved, s) := by
  have hg := guard_of_ci name h
  constructor
  · simp [setteam, hg]
  · simp [deleteteam, hg]

theorem map_self_of_noop {α : Type} (l : List α) (g : α → α)
    (h : ∀ a ∈ l, g a = a) : l.map g = l := by
  induction l with
  | nil => rfl
  | cons a l ih =>
    rw [List.map_cons, h a (List.mem_cons_self a l),
      ih (fun b hb => h b (List.mem_cons_of_mem a hb))]

/-- Upserting the same player key twice collapses to the second upsert. -/
theorem upsertPlayer_twice (l : List Player) (x y : Player)
    (h : x.roblox_user = y.roblox_user) :
    upsertPlayer (upsertPlayer l x) y = upsertPlayer l y := by
  by_cases hA : l.any (fun r => r.roblox_user == x.roblox_user) = true
  · have hA2 : l.any (fun r => r.roblox_user == y.roblox_user) = true := by
      rw [← h]; exact hA
    have hmapA : (l.map (fun r => if r.roblox_user == x.roblox_user then x else r)).any
        (fun r => r.roblox_user == y.roblox_user) = true := by
      simp only [List.any_eq_true] at hA ⊢
      obtain ⟨r, hr, hru⟩ := hA
      refine ⟨x, List.mem_map.2 ⟨r, hr, ?_⟩, ?_⟩
      · rw [if_pos hru]
      · simp [h]
    simp only [upsertPlayer, hA, hA2, hmapA, if_true, List.map_map]
    apply List.map_congr_left
    intro r _
    by_cases hr : r.roblox_user = y.roblox_user
    · simp [Function.comp, hr, ← h]
    · have hrx : r.roblox_user ≠ x.roblox_user := fun he => hr (h ▸ he)
      simp [Function.comp, hr, hrx]
  · rw [Bool.not_eq_true] at hA
    have hA2 : l.any (fun r => r.roblox_user == y.roblox_user) = false := by
      rw [← h]; exact hA
    have hApp : ((l ++ [x]).any (fun r => r.roblox_user == y.roblox_user)) = true := by
      simp only [List.any_append, List.any_eq_true, beq_iff_eq, Bool.or_eq_true]
      exact Or.inr ⟨x, List.mem_singleton.2 rfl, h⟩
    simp only [upsertPlayer, hA, hA2, Bool.false_eq_true, if_false, hApp, if_true,
      List.map_append]
    have hx : [x].map (fun r => if r.roblox_user == y.roblox_user then y else r) = [y] := by
      simp [h]
    rw [hx, map_self_of_noop]
    intro r hr
    have hne : (r.roblox_user == y.roblox_user) = false := by
      rw [List.any_eq_false] at hA2
      simpa using hA2 r hr
    rw [hne]
    simp

/-- After an upsert of `y`, the first row satisfying any predicate that
holds of `y` and forces `y`'s key on the rows of `l` is `y` itself. -/
theorem find?_upsertPlayer_of (l : List Player) (y : Player) (q : Player → Bool)
    (hqy : q y = true)
    (hq : ∀ r ∈ l, q r = true → r.roblox_user = y.roblox_user) :
    (upsertPlayer l y).find? q = some y := by
  unfold upsertPlayer
  split
  · rename_i hA
    simp only [List.any_eq_true, beq_iff_eq] at hA
    revert hq hA
    induction l with
    | nil =>
      intro hq hA
      obtain ⟨r, hr, _⟩ := hA
      exact absurd hr (List.not_mem_nil r)
    | cons a l ih =>
      intro hq hA
      by_cases ha : a.roblox_user = y.roblox_user
      · rw [List.map_cons]
        have he : (if a.roblox_user == y.roblox_user then y else a) = y := by simp [ha]
        rw [he, List.find?_cons_of_pos _ hqy]
      · rw [List.map_cons]
        have he : (if a.roblox_user == y.roblox_user then y else a) = a := by simp [ha]
        rw [he, List.find?_cons_of_neg]
        · apply ih
          · intro r hr hqr
            exact hq r (List.mem_cons_of_mem a hr) hqr
          · obtain ⟨r, hr, hru⟩ := hA
            rcases List.mem_cons.1 hr with he2 | hr2
            · exact absurd (he2 ▸ hru) ha
            · exact ⟨r, hr2, hru⟩
        · intro hqa
          exact ha (hq a (List.mem_cons_self a l) hqa)
  · rename_i hA
    rw [Bool.not_eq_true, List.any_eq_false] at hA
    rw [List.find?_append]
    have h1 : l.find? q = none := by
      rw [List.find?_eq_none]
      intro r hr hqr
      have := hq r hr hqr
      have h2 := hA r hr
      simp [this] at h2
    rw [h1, List.find?_singleton, if_pos hqy]
    rfl


/-- C1: every mutation operation (`setteam` = createOrUpdateTeam,
`deleteteam`, `rankplayer` = assign, `unrank` = unassign, and the
`ensureSentinelExists` bootstrap inside `init_db`) preserves the two
registry invariants: every player row's `team_name` refers to an existing
team row and the sentinel "Free Agent" team row exists. -/
theorem C1_mutations_preserve_invariants (s : Store) (hInv : Inv s) :
    (∀ team owner manager logo division,
        Inv (setteam s team owner manager logo division).2) ∧
    (∀ teamname, Inv (deleteteam s teamname).2) ∧
    (∀ u T R t, Inv (rankplayer s u T R t).2) ∧
    (∀ u t, ∃ s1, unrank s u t = some s1 ∧ Inv s1) ∧
    Inv (init_db s) := by
  obtain ⟨hRef, hFA⟩ := hInv
  refine ⟨?_, ?_, ?_, ?_, ?_⟩
  · -- setteam
    intro team owner manager logo division
    unfold setteam
    split
    · exact ⟨hRef, hFA⟩
    · refine ⟨?_, ?_⟩
      · intro p hp
        exact mem_name_upsertTeam _ _ _ (hRef p hp)
      · exact mem_name_upsertTeam _ _ _ hFA
  · -- deleteteam
    intro teamname
    by_cases hg : (pyLower (pyStrip teamname) == pyLower FREE_AGENT_TEAM) = true
    · simp only [deleteteam, hg, if_true]
      exact ⟨hRef, hFA⟩
    · rw [Bool.not_eq_true] at hg
      by_cases hc : s.players.countP (fun p => p.team_name == teamname) > 0
      · simp only [deleteteam, hg, Bool.false_eq_true, if_false, hc, if_true]
        exact ⟨hRef, hFA⟩
      · have hnone : ∀ p ∈ s.players, p.team_name ≠ teamname := by
          intro p hp heq
          apply hc
          refine List.countP_pos_iff.2 ⟨p, hp, ?_⟩
          simpa using heq
        have hkeep : ∀ t : Team, t ∈ s.teams → t.name ≠ teamname →
            t ∈ s.teams.filter (fun t => !(t.name == teamname)) := by
          intro t ht hne
          refine List.mem_filter.2 ⟨ht, ?_⟩
          simpa using hne
        have hinv1 : Inv ⟨s.teams.filter (fun t => !(t.name == teamname)), s.players⟩ := by
          refine ⟨?_, ?_⟩
          · intro p hp
            obtain ⟨t, ht, htn⟩ := hRef p hp
            refine ⟨t, hkeep t ht ?_, htn⟩
            rw [htn]
            exact hnone p hp
          · obtain ⟨t, ht, htn⟩ := hFA
            refine ⟨t, hkeep t ht ?_, htn⟩
            intro he
            rw [← he, htn] at hg
            exact absurd hg (by decide)
        simp only [deleteteam, hg, Bool.false_eq_true, if_false, hc, if_true]
        split
        · exact hinv1
        · exact hinv1
  · -- rankplayer
    intro u T R t
    unfold rankplayer
    split
    · exact ⟨hRef, hFA⟩
    · split
      · exact ⟨hRef, hFA⟩
      · rename_i hguard hex
        refine ⟨?_, hFA⟩
        intro p hp
        rcases mem_upsertPlayer _ _ _ hp with hpx | hpold
        · subst hpx
          rw [Bool.not_eq_true, Bool.not_eq_false'] at hex
          simp only [List.any_eq_true, beq_iff_eq] at hex
          obtain ⟨r, hr, hrn⟩ := hex
          exact ⟨r, hr, hrn⟩
        · exact hRef p hpold
  · -- unrank
    intro u t
    have hany : s.teams.any (fun t => t.name == FREE_AGENT_TEAM) = true := by
      simp only [List.any_eq_true, beq_iff_eq]
      exact hFA
    refine ⟨{ s with players := upsertPlayer s.players ⟨u, FREE_AGENT_TEAM, "Free Agent", t⟩ }, ?_, ?_⟩
    · unfold unrank
      rw [if_pos hany]
    · refine ⟨?_, hFA⟩
      intro p hp
      rcases mem_upsertPlayer _ _ _ hp with hpx | hpold
      · subst hpx
        exact hFA
      · exact hRef p hpold
  · -- init_db
    refine ⟨?_, sentinel_mem_ensure_free_agent _⟩
    intro p hp
    exact mem_name_ensure_free_agent _ _ (hRef p hp)

/-- C1 witness: concrete instance on a store holding the sentinel, one
league team and one player. -/
theorem C1_mutations_preserve_invariants_witness :
    Inv ⟨[⟨"Free Agent", "System", none, none, some "None"⟩,
          ⟨"Red", "o", none, none, some "None"⟩],
         [⟨"bob", "Red", "Player", "t0"⟩]⟩ ∧
    (Inv (setteam ⟨[⟨"Free Agent", "System", none, none, some "None"⟩,
          ⟨"Red", "o", none, none, some "None"⟩],
         [⟨"bob", "Red", "Player", "t0"⟩]⟩ "Blue" "w" none none none).2 ∧
     Inv (deleteteam ⟨[⟨"Free Agent", "System", none, none, some "None"⟩,
          ⟨"Red", "o", none, none, some "None"⟩],
         [⟨"bob", "Red", "Player", "t0"⟩]⟩ "Red").2 ∧
     Inv (rankplayer ⟨[⟨"Free Agent", "System", none, none, some "None"⟩,
          ⟨"Red", "o", none, none, some "None"⟩],
         [⟨"bob", "Red", "Player", "t0"⟩]⟩ "alice" "Red" "Player" "t1").2 ∧
     (∃ s1, unrank ⟨[⟨"Free Agent", "System", none, none, some "None"⟩,
          ⟨"Red", "o", none, none, some "None"⟩],
         [⟨"bob", "Red", "Player", "t0"⟩]⟩ "bob" "t1" = some s1 ∧ Inv s1) ∧
     Inv (init_db ⟨[⟨"Free Agent", "System", none, none, some "None"⟩,
          ⟨"Red", "o", none, none, some "None"⟩],
         [⟨"bob", "Red", "Player", "t0"⟩]⟩)) := by
  have h := C1_mutations_preserve_invariants
    ⟨[⟨"Free Agent", "System", none, none, some "None"⟩,
      ⟨"Red", "o", none, none, some "None"⟩],
     [⟨"bob", "Red", "Player", "t0"⟩]⟩ (by decide)
  exact ⟨by decide,
    h.1 "Blue" "w" none none none, h.2.1 "Red",
    h.2.2.1 "alice" "Red" "Player" "t1", h.2.2.2.1 "bob" "t1", h.2.2.2.2⟩

/-- C5: assigning the same handle to the same existing non-sentinel team
with the same rank twice in succession yields the same final store as the
single later call, and the player row's `updated_at` is the later call's
timestamp. -/
theorem C5_assign_idempotent (s : Store) (h T R t1 t2 : String)
    (hg : pyLower (pyStrip T) ≠ pyLower FREE_AGENT_TEAM)
    (hex : ∃ r ∈ s.teams, r.name = T) :
    (rankplayer (rankplayer s h T R t1).2 h T R t2).2 = (rankplayer s h T R t2).2 ∧
    (rankplayer (rankplayer s h T R t1).2 h T R t2).2.players.find?
        (fun p => p.roblox_user == h) = some ⟨h, T, R, t2⟩ := by
  have hg2 : (pyLower (pyStrip T) == pyLower FREE_AGENT_TEAM) = false := by
    simpa using hg
  have hany : s.teams.any (fun r => r.name == T) = true := by
    simp only [List.any_eq_true, beq_iff_eq]
    exact hex
  have h1 : (rankplayer s h T R t1).2 =
      { s with players := upsertPlayer s.players ⟨h, T, R, t1⟩ } := by
    simp [rankplayer, hg2, hany]
  have h2 : (rankplayer s h T R t2).2 =
      { s with players := upsertPlayer s.players ⟨h, T, R, t2⟩ } := by
    simp [rankplayer, hg2, hany]
  have hsecond : (rankplayer (rankplayer s h T R t1).2 h T R t2).2 =
      { s with players := upsertPlayer (upsertPlayer s.players ⟨h, T, R, t1⟩) ⟨h, T, R, t2⟩ } := by
    rw [h1]
    simp [rankplayer, hg2, hany]
  have hcollapse := upsertPlayer_twice s.players ⟨h, T, R, t1⟩ ⟨h, T, R, t2⟩ rfl
  constructor
  · rw [hsecond, h2, hcollapse]
  · rw [hsecond]
    simp only
    rw [hcollapse]
    exact find?_upsertPlayer_of s.players ⟨h, T, R, t2⟩ _ (by simp)
      (fun r _ hq => by simpa using hq)

/-- C5 witness: double assignment of "alice" to "Red". -/
theorem C5_assign_idempotent_witness :
    (rankplayer (rankplayer ⟨[⟨"Free Agent", "System", none, none, some "None"⟩,
        ⟨"Red", "o", none, none, some "None"⟩], []⟩ "alice" "Red" "Player" "t1").2
      "alice" "Red" "Player" "t2").2 =
      (rankplayer ⟨[⟨"Free Agent", "System", none, none, some "None"⟩,
        ⟨"Red", "o", none, none, some "None"⟩], []⟩ "alice" "Red" "Player" "t2").2 ∧
    (rankplayer (rankplayer ⟨[⟨"Free Agent", "System", none, none, some "None"⟩,
        ⟨"Red", "o", none, none, some "None"⟩], []⟩ "alice" "Red" "Player" "t1").2
      "alice" "Red" "Player" "t2").2.players.find?
        (fun p => p.roblox_user == "alice") = some ⟨"alice", "Red", "Player", "t2"⟩ :=
  C5_assign_idempotent _ "alice" "Red" "Player" "t1" "t2" (by decide) (by decide)

/-- C6 counterexample: "" is an existing non-sentinel team name (created by
`setteam`), the assignment of "alice" to it succeeds, yet `playerinfo`
reports team "Free Agent", not "": the view coalesces a falsy stored name
(`row["team_name"] or FREE_AGENT_TEAM`). -/
theorem C6_counterexample :
    pyLower (pyStrip "") ≠ pyLower FREE_AGENT_TEAM ∧
    ("" ∈ ((setteam ⟨[sentinelRow], []⟩ "" "o" none none none).2).teams.map Team.name) ∧
    (rankplayer (setteam ⟨[sentinelRow], []⟩ "" "o" none none none).2
        "alice" "" "Player" "t1").1 = RankResult.added ∧
    ((playerinfo (rankplayer (setteam ⟨[sentinelRow], []⟩ "" "o" none none none).2
        "alice" "" "Player" "t1").2 "alice").map PlayerView.team_name) = some "Free Agent" ∧
    ("Free Agent" : String) ≠ "" := by
  refine ⟨by decide, by decide, by decide, by decide, by decide⟩

/-- C6 (amended): for every handle h, rank R and existing non-sentinel team
name T, with T and R nonempty and no other stored handle equal to h up to
letter case, after a successful assign `playerinfo h` reports team T and raw
rank R; and a subsequent unassign (the sentinel row being present) makes
`playerinfo h` report team "Free Agent". -/
theorem C6_round_trip (s : Store) (h T R t t2 : String)
    (hg : pyLower (pyStrip T) ≠ pyLower FREE_AGENT_TEAM)
    (hex : ∃ r ∈ s.teams, r.name = T)
    (hT : T ≠ "") (hR : R ≠ "")
    (hcol : ∀ p ∈ s.players, pyLower p.roblox_user = pyLower h → p.roblox_user = h)
    (hFA : ∃ r ∈ s.teams, r.name = FREE_AGENT_TEAM) :
    (∃ v, playerinfo (rankplayer s h T R t).2 h = some v ∧
      v.team_name = T ∧ v.rank_raw = R) ∧
    (∃ s2 v, unrank (rankplayer s h T R t).2 h t2 = some s2 ∧
      playerinfo s2 h = some v ∧ v.team_name = FREE_AGENT_TEAM) := by
  have hg2 : (pyLower (pyStrip T) == pyLower FREE_AGENT_TEAM) = false := by
    simpa using hg
  have hany : s.teams.any (fun r => r.name == T) = true := by
    simp only [List.any_eq_true, beq_iff_eq]
    exact hex
  have h1 : (rankplayer s h T R t).2 =
      { s with players := upsertPlayer s.players ⟨h, T, R, t⟩ } := by
    simp [rankplayer, hg2, hany]
  have hfind1 : (upsertPlayer s.players ⟨h, T, R, t⟩).find?
      (fun p => pyLower p.roblox_user == pyLower h) = some ⟨h, T, R, t⟩ := by
    apply find?_upsertPlayer_of
    · simp
    · intro r hr hq
      rw [beq_iff_eq] at hq
      exact hcol r hr hq
  constructor
  · refine ⟨viewOf (rankplayer s h T R t).2 ⟨h, T, R, t⟩, ?_, ?_, ?_⟩
    · rw [playerinfo, h1]
      simp only
      rw [hfind1]
      rw [← h1]
      rfl
    · simp [viewOf, hT]
    · simp [viewOf, hR]
  · have hanyFA : s.teams.any (fun r => r.name == FREE_AGENT_TEAM) = true := by
      simp only [List.any_eq_true, beq_iff_eq]
      exact hFA
    have hun : unrank (rankplayer s h T R t).2 h t2 = some { s with players := upsertPlayer (upsertPlayer s.players ⟨h, T, R, t⟩) ⟨h, FREE_AGENT_TEAM, "Free Agent", t2⟩ } := by
      rw [h1, unrank]
      simp only
      rw [if_pos hanyFA]
    refine ⟨_, viewOf { s with players := upsertPlayer (upsertPlayer s.players ⟨h, T, R, t⟩) ⟨h, FREE_AGENT_TEAM, "Free Agent", t2⟩ } ⟨h, FREE_AGENT_TEAM, "Free Agent", t2⟩, hun, ?_, ?_⟩
    · rw [playerinfo]
      simp only
      have hfind2 : (upsertPlayer (upsertPlayer s.players ⟨h, T, R, t⟩)
          ⟨h, FREE_AGENT_TEAM, "Free Agent", t2⟩).find?
          (fun p => pyLower p.roblox_user == pyLower h) =
            some ⟨h, FREE_AGENT_TEAM, "Free Agent", t2⟩ := by
        apply find?_upsertPlayer_of
        · simp
        · intro r hr hq
          rw [beq_iff_eq] at hq
          rcases mem_upsertPlayer _ _ _ hr with he | hold
          · rw [he]
          · exact hcol r hold hq
      rw [hfind2]
      rfl
    · simp [viewOf, FREE_AGENT_TEAM]

/-- C6 witness: assign "alice" to "Red", view, unassign, view again. -/
theorem C6_round_trip_witness :
    (∃ v, playerinfo (rankplayer ⟨[sentinelRow, ⟨"Red", "o", none, none, some "None"⟩], []⟩
        "alice" "Red" "Player" "t1").2 "alice" = some v ∧
      v.team_name = "Red" ∧ v.rank_raw = "Player") ∧
    (∃ s2 v, unrank (rankplayer ⟨[sentinelRow, ⟨"Red", "o", none, none, some "None"⟩], []⟩
        "alice" "Red" "Player" "t1").2 "alice" "t2" = some s2 ∧
      playerinfo s2 "alice" = some v ∧ v.team_name = FREE_AGENT_TEAM) :=
  C6_round_trip ⟨[sentinelRow, ⟨"Red", "o", none, none, some "None"⟩], []⟩
    "alice" "Red" "Player" "t1" "t2" (by decide) (by decide) (by decide) (by decide)
    (by decide) (by decide)

theorem prefixB_iff (p : List Char) : ∀ s, prefixB p s = true ↔ ∃ r, s = p ++ r := by
  induction p with
  | nil =>
    intro s
    simp [prefixB]
  | cons a p ih =>
    intro s
    cases s with
    | nil =>
      simp [prefixB]
    | cons b s =>
      rw [prefixB, Bool.and_eq_true, beq_iff_eq, ih]
      constructor
      · rintro ⟨rfl, r, rfl⟩
        exact ⟨r, rfl⟩
      · rintro ⟨r, he⟩
        rw [List.cons_append] at he
        injection he with h1 h2
        exact ⟨h1.symm, r, h2⟩

/-- Boolean substring containment means a two-sided split exists. -/
theorem substrB_iff (p : List Char) : ∀ s, substrB p s = true ↔ ∃ l r, s = l ++ p ++ r := by
  intro s
  induction s with
  | nil =>
    rw [substrB]
    constructor
    · intro hx
      have hp : p = [] := by simpa [List.isEmpty_iff] using hx
      exact ⟨[], [], by simp [hp]⟩
    · rintro ⟨l, r, he⟩
      have h2 : (l ++ p) ++ r = [] := he.symm
      rw [List.append_eq_nil] at h2
      have h3 := h2.1
      rw [List.append_eq_nil] at h3
      simp [List.isEmpty_iff, h3.2]
  | cons c s ih =>
    rw [substrB, Bool.or_eq_true, prefixB_iff, ih]
    constructor
    · rintro (⟨r, he⟩ | ⟨l, r, he⟩)
      · exact ⟨[], r, by simp [he]⟩
      · exact ⟨c :: l, r, by simp [he]⟩
    · rintro ⟨l, r, he⟩
      cases l with
      | nil =>
        left
        exact ⟨r, by simpa using he⟩
      | cons d l1 =>
        right
        rw [List.cons_append, List.cons_append] at he
        injection he with h1 h2
        exact ⟨l1, r, h2⟩

theorem mem_suffixes (t : List Char) : ∀ s, t ∈ suffixes s ↔ ∃ l, s = l ++ t := by
  intro s
  induction s with
  | nil =>
    rw [suffixes]
    constructor
    · intro hx
      refine ⟨[], ?_⟩
      have := List.mem_singleton.1 hx
      simp [this]
    · rintro ⟨l, he⟩
      have h2 : l ++ t = [] := he.symm
      rw [List.append_eq_nil] at h2
      simp [h2.2]
  | cons c s ih =>
    rw [suffixes, List.mem_cons, ih]
    constructor
    · rintro (he | ⟨l, he⟩)
      · exact ⟨[], by simp [he]⟩
      · exact ⟨c :: l, by simp [he]⟩
    · rintro ⟨l, he⟩
      cases l with
      | nil => left; simpa using he.symm
      | cons d l1 =>
        right
        rw [List.cons_append] at he
        injection he with h1 h2
        exact ⟨l1, h2⟩

theorem sqlLike_pct_eq (p s : List Char) :
    sqlLike ('%' :: p) s = (suffixes s).any (fun t => sqlLike p t) := by
  cases s <;> rfl

theorem sqlLike_clean_nil_eq (a : Char) (p : List Char)
    (h1 : a ≠ '%') (h2 : a ≠ '_') (h3 : a ≠ '\\') :
    sqlLike (a :: p) [] = false := by
  simp [sqlLike, h1, h2, h3]

theorem sqlLike_clean_cons_eq (a : Char) (p : List Char) (b : Char) (s1 : List Char)
    (h1 : a ≠ '%') (h2 : a ≠ '_') (h3 : a ≠ '\\') :
    sqlLike (a :: p) (b :: s1) = (a == b && sqlLike p s1) := by
  simp [sqlLike, h1, h2, h3]

/-- A wildcard-free pattern followed by `%` matches exactly the texts it
prefixes. -/
theorem sqlLike_clean_pfx (q : List Char) (hq : cleanPat q) :
    ∀ s, sqlLike (q ++ ['%']) s = true ↔ ∃ r, s = q ++ r := by
  induction q with
  | nil =>
    intro s
    rw [List.nil_append, sqlLike_pct_eq]
    simp only [List.any_eq_true]
    constructor
    · intro _
      exact ⟨s, rfl⟩
    · intro _
      refine ⟨[], (mem_suffixes [] s).2 ⟨s, by simp⟩, ?_⟩
      rfl
  | cons a q ih =>
    intro s
    have ha := hq a (List.mem_cons_self a q)
    have ihq : cleanPat q := fun c hc => hq c (List.mem_cons_of_mem a hc)
    rw [List.cons_append]
    cases s with
    | nil =>
      rw [sqlLike_clean_nil_eq a _ ha.1 ha.2.1 ha.2.2]
      simp
    | cons b s1 =>
      rw [sqlLike_clean_cons_eq a _ b s1 ha.1 ha.2.1 ha.2.2]
      simp only [Bool.and_eq_true, beq_iff_eq, ih ihq s1]
      constructor
      · rintro ⟨rfl, r, rfl⟩
        exact ⟨r, rfl⟩
      · rintro ⟨r, he⟩
        rw [List.cons_append] at he
        injection he with hb hs
        exact ⟨hb.symm, r, hs⟩

/-- The `LIKE` pattern `%q%` for wildcard-free `q` is exactly case-blind
substring containment of `q`. -/
theorem sqlLike_substr_iff (q : List Char) (hq : cleanPat q) (s : List Char) :
    sqlLike ('%' :: (q ++ ['%'])) s = true ↔ substrB q s = true := by
  rw [sqlLike_pct_eq, substrB_iff]
  simp only [List.any_eq_true]
  constructor
  · rintro ⟨t, hts, hmt⟩
    obtain ⟨l, rfl⟩ := (mem_suffixes t _).1 hts
    obtain ⟨r, rfl⟩ := (sqlLike_clean_pfx q hq t).1 hmt
    exact ⟨l, r, by rw [List.append_assoc]⟩
  · rintro ⟨l, r, rfl⟩
    refine ⟨q ++ r, (mem_suffixes _ _).2 ⟨l, by rw [List.append_assoc]⟩, ?_⟩
    exact (sqlLike_clean_pfx q hq _).2 ⟨r, rfl⟩

theorem lexLe_iff (s : List Char) : ∀ t, lexLe s t = true ↔ ¬ List.lt t s := by
  induction s with
  | nil =>
    intro t
    rw [lexLe.eq_def]
    constructor
    · intro _ h
      cases t with
      | nil => cases h
      | cons b t1 => cases h
    · intro _
      cases t <;> rfl
  | cons a s1 ih =>
    intro t
    cases t with
    | nil =>
      constructor
      · intro h
        cases h
      · intro h
        exact absurd (List.lt.nil a s1) h
    | cons b t1 =>
      rw [lexLe]
      by_cases hab : a < b
      · rw [if_pos hab]
        constructor
        · intro _ h
          cases h with
          | head _ _ h2 => exact lt_asymm hab h2
          | tail h2 h3 _ => exact h3 hab
        · intro _
          rfl
      · rw [if_neg hab]
        by_cases hba : b < a
        · rw [if_pos hba]
          constructor
          · intro h
            cases h
          · intro h
            exact absurd (List.lt.head t1 s1 hba) h
        · rw [if_neg hba, ih t1]
          constructor
          · intro h h2
            cases h2 with
            | head _ _ h3 => exact hba h3
            | tail h3 h4 h5 => exact h h5
          · intro h h2
            exact h (List.lt.tail hba hab h2)

/-- The computable lexicographic order agrees with the library order on
strings. -/
theorem strLe_iff_le (a b : String) : strLe a b = true ↔ a ≤ b := by
  have h1 := lexLe_iff a.data b.data
  have h2 : b < a ↔ List.lt b.data a.data :=
    String.lt_iff_toList_lt.trans (List.lt_iff_lex_lt _ _).symm
  constructor
  · intro hx hlt
    exact h1.1 hx (h2.1 hlt)
  · intro hx
    exact h1.2 (fun hlt => hx (h2.2 hlt))

/-- Facts about a lexicographically sorted 25-capped list: membership is
membership of the base list, the cap holds, the output is sorted, and a base
element is either returned or the cap was reached. -/
theorem take25_sort_facts (L : List String) :
    (∀ n ∈ (L.insertionSort (fun a b => strLe a b = true)).take 25, n ∈ L) ∧
    ((L.insertionSort (fun a b => strLe a b = true)).take 25).length ≤ 25 ∧
    List.Sorted (· ≤ ·) ((L.insertionSort (fun a b => strLe a b = true)).take 25) ∧
    (∀ n ∈ L, n ∈ (L.insertionSort (fun a b => strLe a b = true)).take 25 ∨
      ((L.insertionSort (fun a b => strLe a b = true)).take 25).length = 25) := by
  haveI hTot : IsTotal String (fun a b => strLe a b = true) := by
    constructor
    intro a b
    rcases le_total a b with h | h
    · exact Or.inl ((strLe_iff_le a b).2 h)
    · exact Or.inr ((strLe_iff_le b a).2 h)
  haveI hTrans : IsTrans String (fun a b => strLe a b = true) := by
    constructor
    intro a b c hab hbc
    exact (strLe_iff_le a c).2 (le_trans ((strLe_iff_le a b).1 hab) ((strLe_iff_le b c).1 hbc))
  have hperm := List.perm_insertionSort (fun a b => strLe a b = true) L
  refine ⟨?_, List.length_take_le _ _, ?_, ?_⟩
  · intro n hn
    exact hperm.mem_iff.1 (List.mem_of_mem_take hn)
  · have hs := List.sorted_insertionSort (fun a b => strLe a b = true) L
    have hs2 := List.Pairwise.sublist (List.take_sublist 25 _) hs
    exact List.Pairwise.imp (fun h => (strLe_iff_le _ _).1 h) hs2
  · intro n hn
    have hmem : n ∈ L.insertionSort (fun a b => strLe a b = true) := hperm.mem_iff.2 hn
    by_cases hlen : (L.insertionSort (fun a b => strLe a b = true)).length ≤ 25
    · left
      rw [List.take_of_length_le hlen]
      exact hmem
    · right
      rw [List.length_take]
      omega

/-- An upsert leaves a row carrying exactly the upserted name. -/
theorem upsertTeam_mem_new (ts : List Team) (t : Team) :
    ∃ r ∈ upsertTeam ts t, r.name = t.name := by
  unfold upsertTeam
  split
  · rename_i hA
    simp only [List.any_eq_true] at hA
    obtain ⟨r, hr, hru⟩ := hA
    refine ⟨t, List.mem_map.2 ⟨r, hr, ?_⟩, rfl⟩
    rw [if_pos hru]
  · exact ⟨t, List.mem_append_right _ (List.mem_singleton.2 rfl), rfl⟩

/-- C7 counterexample: `setteam` stores "Red" and "RED" as two distinct
coexisting rows although their names agree up to letter case, and the
exact-match lookup `teamview "red"` finds neither. -/
theorem C7_counterexample :
    ("Red" : String) ≠ "RED" ∧
    pyLower "Red" = pyLower "RED" ∧
    ((setteam (setteam ⟨[sentinelRow], []⟩ "Red" "o" none none none).2
        "RED" "p" none none none).2.teams.map Team.name =
      ["Free Agent", "Red", "RED"]) ∧
    teamview (setteam (setteam ⟨[sentinelRow], []⟩ "Red" "o" none none none).2
        "RED" "p" none none none).2 "red" = none := by
  refine ⟨by decide, by decide, by decide, by decide⟩

/-- C7 (amended): the team primary key is case-preserved and case-sensitive:
`teamview` answers exactly when a row with exactly the queried name exists
(a row differing only in case does not match), `setteam` (sentinel guard
passing) stores the name exactly as given, and every previously stored name
survives the upsert, so rows differing only in case coexist. -/
theorem C7_team_key_exact (s : Store) (q team owner : String)
    (manager : Option String) (logo : Option Int) (division : Option String)
    (hg : pyLower (pyStrip team) ≠ pyLower FREE_AGENT_TEAM) :
    ((∃ r ∈ s.teams, r.name = q) → (teamview s q).isSome = true) ∧
    ((∀ r ∈ s.teams, r.name ≠ q) → teamview s q = none) ∧
    (∃ r ∈ (setteam s team owner manager logo division).2.teams, r.name = team) ∧
    (∀ n, (∃ r ∈ s.teams, r.name = n) →
      ∃ r ∈ (setteam s team owner manager logo division).2.teams, r.name = n) := by
  have hg2 : (pyLower (pyStrip team) == pyLower FREE_AGENT_TEAM) = false := by
    simpa using hg
  have hset : (setteam s team owner manager logo division).2 = { s with teams := upsertTeam s.teams ⟨team, owner, manager, logo, some (div_value division)⟩ } := by
    simp [setteam, hg2]
  refine ⟨?_, ?_, ?_, ?_⟩
  · intro hmem
    rw [teamview]
    obtain ⟨r, hr, hrn⟩ := hmem
    have hsome : (s.teams.find? (fun t => t.name == q)).isSome = true :=
      List.find?_isSome.2 ⟨r, hr, by simpa using hrn⟩
    cases hfo : s.teams.find? (fun t => t.name == q) with
    | none => rw [hfo] at hsome; simp at hsome
    | some v => rfl
  · intro habs
    rw [teamview]
    have hnone : s.teams.find? (fun t => t.name == q) = none := by
      rw [List.find?_eq_none]
      intro r hr hb
      exact habs r hr (by simpa using hb)
    rw [hnone]
    rfl
  · rw [hset]
    exact upsertTeam_mem_new _ _
  · intro n hmem
    rw [hset]
    exact mem_name_upsertTeam _ _ _ hmem

/-- C7 witness: with "Red" stored, looking up "Red" succeeds, "red" fails,
and upserting "RED" preserves "Red" while storing "RED" verbatim. -/
theorem C7_team_key_exact_witness :
    ((∃ r ∈ (Store.mk [sentinelRow, ⟨"Red", "o", none, none, some "None"⟩] []).teams,
        r.name = "Red") →
      (teamview ⟨[sentinelRow, ⟨"Red", "o", none, none, some "None"⟩], []⟩ "Red").isSome = true) ∧
    ((∀ r ∈ (Store.mk [sentinelRow, ⟨"Red", "o", none, none, some "None"⟩] []).teams,
        r.name ≠ "Red") →
      teamview ⟨[sentinelRow, ⟨"Red", "o", none, none, some "None"⟩], []⟩ "Red" = none) ∧
    (∃ r ∈ (setteam ⟨[sentinelRow, ⟨"Red", "o", none, none, some "None"⟩], []⟩
        "RED" "p" none none none).2.teams, r.name = "RED") ∧
    (∀ n, (∃ r ∈ (Store.mk [sentinelRow, ⟨"Red", "o", none, none, some "None"⟩] []).teams,
        r.name = n) →
      ∃ r ∈ (setteam ⟨[sentinelRow, ⟨"Red", "o", none, none, some "None"⟩], []⟩
        "RED" "p" none none none).2.teams, r.name = n) :=
  C7_team_key_exact ⟨[sentinelRow, ⟨"Red", "o", none, none, some "None"⟩], []⟩
    "Red" "RED" "p" none none none (by decide)

/-- With distinct player keys, the lookup by a stored row's key finds
exactly that row. -/
theorem find?_eq_of_mem_nodup (l : List Player) (p : Player)
    (hnd : (l.map Player.roblox_user).Nodup) (hp : p ∈ l) :
    l.find? (fun q => q.roblox_user == p.roblox_user) = some p := by
  induction l with
  | nil => exact absurd hp (List.not_mem_nil p)
  | cons a l ih =>
    rcases List.mem_cons.1 hp with he | hmem
    · rw [← he]
      exact List.find?_cons_of_pos _ (by simp)
    · rw [List.map_cons, List.nodup_cons] at hnd
      have hau : a.roblox_user ≠ p.roblox_user := by
        intro he2
        exact hnd.1 (he2 ▸ List.mem_map_of_mem Player.roblox_user hmem)
      rw [List.find?_cons_of_neg _ (by simpa using hau)]
      exact ih hnd.2 hmem

/-- C8 counterexample: for the pattern " red" (leading space) the search
returns "Red", although "Red" does not contain " red" as a substring up to
letter case: the code strips the pattern before matching. -/
theorem C8_counterexample :
    fetch_team_names_like ⟨[sentinelRow, ⟨"Red", "o", none, none, some "None"⟩], []⟩
        " red" true = ["Red"] ∧
    substrB (pyLower " red").data (pyLower "Red").data = false := by
  refine ⟨by decide, by decide⟩

/-- C8 (amended): for every pattern p whose stripped lowered form is free of
the `LIKE` metacharacters, `fetch_team_names_like` returns only stored team
names containing the stripped lowercased p as a substring of their lowered
name (the sentinel excluded unless requested), at most 25 of them, ordered
lexicographically, and omits such a matching name only when the 25 cap is
reached. -/
theorem C8_search_names (s : Store) (p : String) (incl : Bool)
    (hclean : cleanPat (pyLower (pyStrip p)).data) :
    (∀ n ∈ fetch_team_names_like s p incl,
      (∃ r ∈ s.teams, r.name = n) ∧
      substrB (pyLower (pyStrip p)).data (pyLower n).data = true ∧
      (incl = false → n ≠ FREE_AGENT_TEAM)) ∧
    (fetch_team_names_like s p incl).length ≤ 25 ∧
    List.Sorted (· ≤ ·) (fetch_team_names_like s p incl) ∧
    (∀ n, (∃ r ∈ s.teams, r.name = n) →
      substrB (pyLower (pyStrip p)).data (pyLower n).data = true →
      (incl = true ∨ n ≠ FREE_AGENT_TEAM) →
      n ∈ fetch_team_names_like s p incl ∨
        (fetch_team_names_like s p incl).length = 25) := by
  have hfacts := take25_sort_facts ((s.teams.filter (fun t =>
      (incl || !(t.name == FREE_AGENT_TEAM)) &&
        sqlLike ('%' :: ((pyLower (pyStrip p)).data ++ ['%']))
          (pyLower t.name).data)).map Team.name)
  obtain ⟨hf1, hf2, hf3, hf4⟩ := hfacts
  refine ⟨?_, hf2, hf3, ?_⟩
  · intro n hn
    have hnL := hf1 n hn
    obtain ⟨r, hrf, hrn⟩ := List.mem_map.1 hnL
    have hrm := List.mem_filter.1 hrf
    have hkeep := hrm.2
    rw [Bool.and_eq_true] at hkeep
    refine ⟨⟨r, hrm.1, hrn⟩, ?_, ?_⟩
    · rw [← hrn]
      exact (sqlLike_substr_iff _ hclean _).1 hkeep.2
    · intro hincl
      rw [hincl] at hkeep
      have h3 := hkeep.1
      rw [Bool.false_or, Bool.not_eq_true'] at h3
      rw [← hrn]
      simpa using h3
  · intro n hmem hsub hok
    obtain ⟨r, hr, hrn⟩ := hmem
    have hkeep : ((incl || !(r.name == FREE_AGENT_TEAM)) &&
        sqlLike ('%' :: ((pyLower (pyStrip p)).data ++ ['%']))
          (pyLower r.name).data) = true := by
      rw [Bool.and_eq_true]
      constructor
      · rcases hok with hok | hok
        · rw [hok]
          rfl
        · rw [Bool.or_eq_true]
          right
          rw [Bool.not_eq_true']
          rw [hrn]
          simpa using hok
      · rw [hrn]
        exact (sqlLike_substr_iff _ hclean _).2 hsub
    have hnL : n ∈ (s.teams.filter (fun t =>
        (incl || !(t.name == FREE_AGENT_TEAM)) &&
          sqlLike ('%' :: ((pyLower (pyStrip p)).data ++ ['%']))
            (pyLower t.name).data)).map Team.name :=
      List.mem_map.2 ⟨r, List.mem_filter.2 ⟨hr, hkeep⟩, hrn⟩
    exact hf4 n hnL

/-- C8 witness: searching "re" without the sentinel on a store holding
"Red", "Green" and the sentinel. -/
theorem C8_search_names_witness :
    ((∀ n ∈ fetch_team_names_like ⟨[sentinelRow, ⟨"Red", "o", none, none, some "None"⟩,
        ⟨"Green", "g", none, none, some "None"⟩], []⟩ "re" false,
      (∃ r ∈ (Store.mk [sentinelRow, ⟨"Red", "o", none, none, some "None"⟩,
        ⟨"Green", "g", none, none, some "None"⟩] []).teams, r.name = n) ∧
      substrB (pyLower (pyStrip "re")).data (pyLower n).data = true ∧
      (false = false → n ≠ FREE_AGENT_TEAM)) ∧
    (fetch_team_names_like ⟨[sentinelRow, ⟨"Red", "o", none, none, some "None"⟩,
        ⟨"Green", "g", none, none, some "None"⟩], []⟩ "re" false).length ≤ 25 ∧
    List.Sorted (· ≤ ·) (fetch_team_names_like ⟨[sentinelRow,
        ⟨"Red", "o", none, none, some "None"⟩,
        ⟨"Green", "g", none, none, some "None"⟩], []⟩ "re" false) ∧
    (∀ n, (∃ r ∈ (Store.mk [sentinelRow, ⟨"Red", "o", none, none, some "None"⟩,
        ⟨"Green", "g", none, none, some "None"⟩] []).teams, r.name = n) →
      substrB (pyLower (pyStrip "re")).data (pyLower n).data = true →
      (false = true ∨ n ≠ FREE_AGENT_TEAM) →
      n ∈ fetch_team_names_like ⟨[sentinelRow, ⟨"Red", "o", none, none, some "None"⟩,
        ⟨"Green", "g", none, none, some "None"⟩], []⟩ "re" false ∨
        (fetch_team_names_like ⟨[sentinelRow, ⟨"Red", "o", none, none, some "None"⟩,
          ⟨"Green", "g", none, none, some "None"⟩], []⟩ "re" false).length = 25)) :=
  C8_search_names ⟨[sentinelRow, ⟨"Red", "o", none, none, some "None"⟩,
      ⟨"Green", "g", none, none, some "None"⟩], []⟩ "re" false (by decide)

/-- C10: the player primary key is case-sensitive while the reads match the
handle case-insensitively: with a stored row keyed h2 and no row keyed h,
where h and h2 differ only in letter case, assign and unassign on h append a
second row keyed exactly h (the h2 row survives unchanged), and the
case-insensitive reads (`playerinfo` and the HTTP player endpoint) answer
from one of the rows matching h up to letter case. -/
theorem C10_handle_case_sensitivity (s : Store) (h h2 T R t t2 : String)
    (hne : h ≠ h2) (hci : pyLower h = pyLower h2)
    (hrow : ∃ p ∈ s.players, p.roblox_user = h2)
    (habs : ∀ p ∈ s.players, p.roblox_user ≠ h)
    (hg : pyLower (pyStrip T) ≠ pyLower FREE_AGENT_TEAM)
    (hex : ∃ r ∈ s.teams, r.name = T)
    (hFA : ∃ r ∈ s.teams, r.name = FREE_AGENT_TEAM) :
    ((rankplayer s h T R t).2.players = s.players ++ [⟨h, T, R, t⟩]) ∧
    (unrank s h t2 = some ⟨s.teams, s.players ++ [⟨h, FREE_AGENT_TEAM, "Free Agent", t2⟩]⟩) ∧
    (∃ p ∈ (rankplayer s h T R t).2.players, p.roblox_user = h2) ∧
    (∃ p ∈ (rankplayer s h T R t).2.players, p.roblox_user = h) ∧
    (∃ p, p ∈ s.players ∧ pyLower p.roblox_user = pyLower h ∧
      playerinfo s h = some (viewOf s p) ∧
      (player_api s h).map PlayerApi.player = some p.roblox_user) := by
  have hg2 : (pyLower (pyStrip T) == pyLower FREE_AGENT_TEAM) = false := by
    simpa using hg
  have hany : s.teams.any (fun r => r.name == T) = true := by
    simp only [List.any_eq_true, beq_iff_eq]
    exact hex
  have hnoex : s.players.any (fun r => r.roblox_user == h) = false := by
    rw [List.any_eq_false]
    intro p hp
    simpa using habs p hp
  have hup : ∀ x : Player, x.roblox_user = h → upsertPlayer s.players x = s.players ++ [x] := by
    intro x hx
    unfold upsertPlayer
    rw [hx, hnoex]
    simp
  have h1 : (rankplayer s h T R t).2.players = s.players ++ [⟨h, T, R, t⟩] := by
    have : (rankplayer s h T R t).2 =
        { s with players := upsertPlayer s.players ⟨h, T, R, t⟩ } := by
      simp [rankplayer, hg2, hany]
    rw [this]
    exact hup _ rfl
  have hanyFA : s.teams.any (fun r => r.name == FREE_AGENT_TEAM) = true := by
    simp only [List.any_eq_true, beq_iff_eq]
    exact hFA
  refine ⟨h1, ?_, ?_, ?_, ?_⟩
  · rw [unrank, if_pos hanyFA, hup _ rfl]
  · obtain ⟨p, hp, hph⟩ := hrow
    exact ⟨p, h1 ▸ List.mem_append_left _ hp, hph⟩
  · exact ⟨⟨h, T, R, t⟩, h1 ▸ List.mem_append_right _ (List.mem_singleton.2 rfl), rfl⟩
  · have hsome : (s.players.find? (fun q => pyLower q.roblox_user == pyLower h)).isSome = true := by
      rw [List.find?_isSome]
      obtain ⟨p, hp, hph⟩ := hrow
      refine ⟨p, hp, ?_⟩
      rw [hph, ← hci]
      simp
    cases hfo : s.players.find? (fun q => pyLower q.roblox_user == pyLower h) with
    | none => rw [hfo] at hsome; simp at hsome
    | some p =>
      refine ⟨p, List.mem_of_find?_eq_some hfo, ?_, ?_, ?_⟩
      · have := List.find?_some hfo
        simpa using this
      · rw [playerinfo, hfo]
        rfl
      · rw [player_api, hfo]
        rfl

/-- C10 witness: "ALICE" is stored, "alice" is assigned and unassigned, and
the case-insensitive read of "alice" answers from the "ALICE" row. -/
theorem C10_handle_case_sensitivity_witness :
    ((rankplayer ⟨[sentinelRow, ⟨"Red", "o", none, none, some "None"⟩],
        [⟨"ALICE", "Free Agent", "Free Agent", "t0"⟩]⟩ "alice" "Red" "Player" "t1").2.players =
      [⟨"ALICE", "Free Agent", "Free Agent", "t0"⟩] ++ [⟨"alice", "Red", "Player", "t1"⟩]) ∧
    (unrank ⟨[sentinelRow, ⟨"Red", "o", none, none, some "None"⟩],
        [⟨"ALICE", "Free Agent", "Free Agent", "t0"⟩]⟩ "alice" "t2" =
      some ⟨[sentinelRow, ⟨"Red", "o", none, none, some "None"⟩],
        [⟨"ALICE", "Free Agent", "Free Agent", "t0"⟩] ++
          [⟨"alice", FREE_AGENT_TEAM, "Free Agent", "t2"⟩]⟩) ∧
    (∃ p ∈ (rankplayer ⟨[sentinelRow, ⟨"Red", "o", none, none, some "None"⟩],
        [⟨"ALICE", "Free Agent", "Free Agent", "t0"⟩]⟩
        "alice" "Red" "Player" "t1").2.players, p.roblox_user = "ALICE") ∧
    (∃ p ∈ (rankplayer ⟨[sentinelRow, ⟨"Red", "o", none, none, some "None"⟩],
        [⟨"ALICE", "Free Agent", "Free Agent", "t0"⟩]⟩
        "alice" "Red" "Player" "t1").2.players, p.roblox_user = "alice") ∧
    (∃ p, p ∈ (Store.mk [sentinelRow, ⟨"Red", "o", none, none, some "None"⟩]
        [⟨"ALICE", "Free Agent", "Free Agent", "t0"⟩]).players ∧
      pyLower p.roblox_user = pyLower "alice" ∧
      playerinfo ⟨[sentinelRow, ⟨"Red", "o", none, none, some "None"⟩],
        [⟨"ALICE", "Free Agent", "Free Agent", "t0"⟩]⟩ "alice" =
        some (viewOf ⟨[sentinelRow, ⟨"Red", "o", none, none, some "None"⟩],
          [⟨"ALICE", "Free Agent", "Free Agent", "t0"⟩]⟩ p) ∧
      (player_api ⟨[sentinelRow, ⟨"Red", "o", none, none, some "None"⟩],
        [⟨"ALICE", "Free Agent", "Free Agent", "t0"⟩]⟩ "alice").map PlayerApi.player =
        some p.roblox_user) :=
  C10_handle_case_sensitivity ⟨[sentinelRow, ⟨"Red", "o", none, none, some "None"⟩],
      [⟨"ALICE", "Free Agent", "Free Agent", "t0"⟩]⟩ "alice" "ALICE" "Red" "Player" "t1" "t2"
    (by decide) (by decide) (by decide) (by decide) (by decide) (by decide) (by decide)

/-- C9 counterexample: the teams "RED" and "red" are distinct rows (the key
is case-sensitive), "bob" is stored on "RED" and is assigned to the other
team "red", yet the outcome is the updated indicator, not the moved
indicator the claim requires for a change of team. -/
theorem C9_counterexample :
    ("RED" : String) ≠ "red" ∧
    ("RED" ∈ (Store.mk [sentinelRow, ⟨"RED", "o", none, none, some "None"⟩,
        ⟨"red", "p", none, none, some "None"⟩]
        [⟨"bob", "RED", "Player", "t0"⟩]).teams.map Team.name) ∧
    ("red" ∈ (Store.mk [sentinelRow, ⟨"RED", "o", none, none, some "None"⟩,
        ⟨"red", "p", none, none, some "None"⟩]
        [⟨"bob", "RED", "Player", "t0"⟩]).teams.map Team.name) ∧
    ((Store.mk [sentinelRow, ⟨"RED", "o", none, none, some "None"⟩,
        ⟨"red", "p", none, none, some "None"⟩]
        [⟨"bob", "RED", "Player", "t0"⟩]).players.map Player.team_name = ["RED"]) ∧
    (rankplayer ⟨[sentinelRow, ⟨"RED", "o", none, none, some "None"⟩,
        ⟨"red", "p", none, none, some "None"⟩],
        [⟨"bob", "RED", "Player", "t0"⟩]⟩ "bob" "red" "Rank" "t1").1 =
      RankResult.updated ∧
    RankResult.updated ≠ RankResult.moved "RED" := by
  refine ⟨by decide, by decide, by decide, by decide, by decide, by decide⟩

/-- C9 (amended): on a successful assign with distinct player keys, the
outcome indicator is determined by the previous row: added when no row for
the handle existed (or the stored team name was the empty string), moved
with the old name when the stored team name differs from the target up to
letter case, and updated when it matches up to letter case; the three
indicators are pairwise distinct. -/
theorem C9_move_reporting (s : Store) (h T R t : String)
    (hg : pyLower (pyStrip T) ≠ pyLower FREE_AGENT_TEAM)
    (hex : ∃ r ∈ s.teams, r.name = T)
    (hpk : (s.players.map Player.roblox_user).Nodup) :
    ((∀ p ∈ s.players, p.roblox_user ≠ h) → (rankplayer s h T R t).1 = RankResult.added) ∧
    (∀ p ∈ s.players, p.roblox_user = h → p.team_name ≠ "" →
      (pyLower p.team_name ≠ pyLower T →
        (rankplayer s h T R t).1 = RankResult.moved p.team_name) ∧
      (pyLower p.team_name = pyLower T →
        (rankplayer s h T R t).1 = RankResult.updated)) ∧
    (∀ o, RankResult.moved o ≠ RankResult.updated ∧
      RankResult.moved o ≠ RankResult.added) ∧
    RankResult.updated ≠ RankResult.added := by
  have hg2 : (pyLower (pyStrip T) == pyLower FREE_AGENT_TEAM) = false := by
    simpa using hg
  have hany : s.teams.any (fun r => r.name == T) = true := by
    simp only [List.any_eq_true, beq_iff_eq]
    exact hex
  refine ⟨?_, ?_, ?_, ?_⟩
  · intro habs
    have hfind : s.players.find? (fun p => p.roblox_user == h) = none := by
      rw [List.find?_eq_none]
      intro p hp hpq
      exact habs p hp (by simpa using hpq)
    simp [rankplayer, hg2, hany, hfind]
  · intro p hp hph hne
    have hfind : s.players.find? (fun q => q.roblox_user == h) = some p := by
      rw [← hph]
      exact find?_eq_of_mem_nodup s.players p hpk hp
    constructor
    · intro hmove
      simp [rankplayer, hg2, hany, hfind, hne, hmove]
    · intro hsame
      simp [rankplayer, hg2, hany, hfind, hne, hsame]
  · intro o
    exact ⟨fun he => RankResult.noConfusion he, fun he => RankResult.noConfusion he⟩
  · exact fun he => RankResult.noConfusion he

/-- C9 witness: "bob" moves from "Red" to "Blue". -/
theorem C9_move_reporting_witness :
    ((∀ p ∈ (Store.mk [sentinelRow, ⟨"Red", "o", none, none, some "None"⟩,
        ⟨"Blue", "p", none, none, some "None"⟩] [⟨"bob", "Red", "Player", "t0"⟩]).players,
        p.roblox_user ≠ "bob") →
      (rankplayer ⟨[sentinelRow, ⟨"Red", "o", none, none, some "None"⟩,
        ⟨"Blue", "p", none, none, some "None"⟩], [⟨"bob", "Red", "Player", "t0"⟩]⟩
        "bob" "Blue" "Player" "t1").1 = RankResult.added) ∧
    (∀ p ∈ (Store.mk [sentinelRow, ⟨"Red", "o", none, none, some "None"⟩,
        ⟨"Blue", "p", none, none, some "None"⟩] [⟨"bob", "Red", "Player", "t0"⟩]).players,
      p.roblox_user = "bob" → p.team_name ≠ "" →
      (pyLower p.team_name ≠ pyLower "Blue" →
        (rankplayer ⟨[sentinelRow, ⟨"Red", "o", none, none, some "None"⟩,
          ⟨"Blue", "p", none, none, some "None"⟩], [⟨"bob", "Red", "Player", "t0"⟩]⟩
          "bob" "Blue" "Player" "t1").1 = RankResult.moved p.team_name) ∧
      (pyLower p.team_name = pyLower "Blue" →
        (rankplayer ⟨[sentinelRow, ⟨"Red", "o", none, none, some "None"⟩,
          ⟨"Blue", "p", none, none, some "None"⟩], [⟨"bob", "Red", "Player", "t0"⟩]⟩
          "bob" "Blue" "Player" "t1").1 = RankResult.updated)) ∧
    (∀ o, RankResult.moved o ≠ RankResult.updated ∧
      RankResult.moved o ≠ RankResult.added) ∧
    RankResult.updated ≠ RankResult.added :=
  C9_move_reporting ⟨[sentinelRow, ⟨"Red", "o", none, none, some "None"⟩,
      ⟨"Blue", "p", none, none, some "None"⟩], [⟨"bob", "Red", "Player", "t0"⟩]⟩
    "bob" "Blue" "Player" "t1" (by decide) (by decide) (by decide)

/-- C3 counterexample: " free agent" (leading space) is not the sentinel
name up to letter case, no team row with that exact name exists and no
player references it, yet `deleteteam` answers with the reserved-name reply
instead of the not-found reply the claim requires. -/
theorem C3_counterexample :
    pyLower " free agent" ≠ pyLower FREE_AGENT_TEAM ∧
    (∀ r ∈ (Store.mk [⟨"Free Agent", "System", none, none, some "None"⟩] []).teams,
      r.name ≠ " free agent") ∧
    (∀ p ∈ (Store.mk [⟨"Free Agent", "System", none, none, some "None"⟩] []).players,
      p.team_name ≠ " free agent") ∧
    deleteteam ⟨[⟨"Free Agent", "System", none, none, some "None"⟩], []⟩ " free agent" =
      (DeleteResult.reserved, ⟨[⟨"Free Agent", "System", none, none, some "None"⟩], []⟩) ∧
    DeleteResult.reserved ≠ DeleteResult.notFound := by
  refine ⟨by decide, by decide, by decide, by decide, by decide⟩

/-- C3 (amended): for every team name T whose whitespace-stripped form
differs from the sentinel name up to letter case, on a store whose team
primary keys are distinct, `deleteteam` fails with the has-players reply iff
some player row references T at call time; if no player references T it
removes exactly the row named T when one exists and fails with not-found
when none does; on every failure the store is unchanged. -/
theorem C3_delete_guard (s : Store) (T : String)
    (hg : pyLower (pyStrip T) ≠ pyLower FREE_AGENT_TEAM)
    (hpk : (s.teams.map Team.name).Nodup) :
    ((deleteteam s T).1 = DeleteResult.hasPlayers ↔ ∃ p ∈ s.players, p.team_name = T) ∧
    ((∃ p ∈ s.players, p.team_name = T) → deleteteam s T = (.hasPlayers, s)) ∧
    ((∀ p ∈ s.players, p.team_name ≠ T) → (∃ r ∈ s.teams, r.name = T) →
      deleteteam s T =
        (.deleted, ⟨s.teams.filter (fun r => !(r.name == T)), s.players⟩)) ∧
    ((∀ p ∈ s.players, p.team_name ≠ T) → (∀ r ∈ s.teams, r.name ≠ T) →
      deleteteam s T = (.notFound, s)) := by
  have hg2 : (pyLower (pyStrip T) == pyLower FREE_AGENT_TEAM) = false := by
    simpa using hg
  by_cases hP : ∃ p ∈ s.players, p.team_name = T
  · have hc : s.players.countP (fun p => p.team_name == T) > 0 := by
      obtain ⟨p, hp, hpt⟩ := hP
      refine List.countP_pos_iff.2 ⟨p, hp, ?_⟩
      simpa using hpt
    have hres : deleteteam s T = (.hasPlayers, s) := by
      simp only [deleteteam, hg2, Bool.false_eq_true, if_false, hc, if_true]
    refine ⟨?_, fun _ => hres, ?_, ?_⟩
    · rw [hres]
      exact ⟨fun _ => hP, fun _ => rfl⟩
    · intro hno
      obtain ⟨p, hp, hpt⟩ := hP
      exact absurd hpt (hno p hp)
    · intro hno
      obtain ⟨p, hp, hpt⟩ := hP
      exact absurd hpt (hno p hp)
  · have hc : ¬ s.players.countP (fun p => p.team_name == T) > 0 := by
      intro hpos
      obtain ⟨p, hp, hpt⟩ := List.countP_pos_iff.1 hpos
      exact hP ⟨p, hp, by simpa using hpt⟩
    refine ⟨?_, fun hx => absurd hx hP, ?_, ?_⟩
    · simp only [deleteteam, hg2, Bool.false_eq_true, if_false, hc]
      constructor
      · intro hx
        split at hx <;> simp at hx
      · intro hx
        exact absurd hx hP
    · intro _ hmem
      have hcount : s.teams.countP (fun t => t.name == T) = 1 := by
        have h1 : (s.teams.map Team.name).count T = 1 := by
          apply List.count_eq_one_of_mem hpk
          obtain ⟨r, hr, hrn⟩ := hmem
          exact hrn ▸ List.mem_map_of_mem _ hr
        rw [List.count, List.countP_map] at h1
        exact h1
      simp only [deleteteam, hg2, Bool.false_eq_true, if_false, hc, hcount]
      norm_num
    · intro _ habs
      have hcount : s.teams.countP (fun t => t.name == T) = 0 := by
        rw [List.countP_eq_zero]
        intro r hr
        simpa using habs r hr
      have hfilter : s.teams.filter (fun r => !(r.name == T)) = s.teams := by
        rw [List.filter_eq_self]
        intro r hr
        simpa using habs r hr
      simp only [deleteteam, hg2, Bool.false_eq_true, if_false, hc, hcount, hfilter]
      norm_num

/-- C3 witness: deleting the unused team "Red" succeeds and removes exactly
its row, and the not-found/has-players branches are characterised. -/
theorem C3_delete_guard_witness :
    pyLower (pyStrip "Red") ≠ pyLower FREE_AGENT_TEAM ∧
    deleteteam ⟨[⟨"Free Agent", "System", none, none, some "None"⟩,
                 ⟨"Red", "o", none, none, some "None"⟩], []⟩ "Red" =
      (DeleteResult.deleted, ⟨[⟨"Free Agent", "System", none, none, some "None"⟩], []⟩) := by
  constructor
  · decide
  · have h := (C3_delete_guard
      ⟨[⟨"Free Agent", "System", none, none, some "None"⟩,
        ⟨"Red", "o", none, none, some "None"⟩], []⟩ "Red"
      (by decide) (by decide)).2.2.1 (by decide) (by decide)
    rw [h]
    decide

/-- C4 counterexample: with only the sentinel row present, no team row is
named "free agent" (the store's keys are case-sensitive), yet assigning to
"free agent" answers with the use-unrank reply, not the unknown-team reply
the claim requires. -/
theorem C4_counterexample :
    (∀ r ∈ (Store.mk [⟨"Free Agent", "System", none, none, some "None"⟩] []).teams,
      r.name ≠ "free agent") ∧
    (rankplayer ⟨[⟨"Free Agent", "System", none, none, some "None"⟩], []⟩
        "h" "free agent" "Player" "t0").1 = RankResult.useUnrank ∧
    RankResult.useUnrank ≠ RankResult.unknownTeam := by
  refine ⟨by decide, by decide, by decide⟩

/-- C4 (amended): for every handle, rank and team name T whose stripped form
is not the sentinel name up to letter case, when no team row is named T,
`rankplayer` returns the unknown-team reply and leaves the store exactly
unchanged. -/
theorem C4_unknown_team_unchanged (s : Store) (h T R t : String)
    (hg : pyLower (pyStrip T) ≠ pyLower FREE_AGENT_TEAM)
    (habs : ∀ r ∈ s.teams, r.name ≠ T) :
    rankplayer s h T R t = (RankResult.unknownTeam, s) := by
  have hg2 : (pyLower (pyStrip T) == pyLower FREE_AGENT_TEAM) = false := by
    simpa using hg
  have hany : s.teams.any (fun r => r.name == T) = false := by
    rw [List.any_eq_false]
    intro r hr
    simpa using habs r hr
  simp [rankplayer, hg2, hany]

/-- C4 witness: assigning to the absent team "Red" on the bootstrap store. -/
theorem C4_unknown_team_unchanged_witness :
    rankplayer ⟨[⟨"Free Agent", "System", none, none, some "None"⟩], []⟩
        "h" "Red" "Player" "t0" =
      (RankResult.unknownTeam, ⟨[⟨"Free Agent", "System", none, none, some "None"⟩], []⟩) :=
  C4_unknown_team_unchanged _ "h" "Red" "Player" "t0" (by decide) (by decide)

/-- C2 witness: concrete instance at the case variant "FREE agent". -/
theorem C2_sentinel_name_reserved_witness :
    setteam ⟨[⟨"Free Agent", "System", none, none, some "None"⟩], []⟩
        "FREE agent" "o" none none none =
      (.reserved, ⟨[⟨"Free Agent", "System", none, none, some "None"⟩], []⟩) ∧
    deleteteam ⟨[⟨"Free Agent", "System", none, none, some "None"⟩], []⟩
        "FREE agent" =
      (.reserved, ⟨[⟨"Free Agent", "System", none, none, some "None"⟩], []⟩) :=
  C2_sentinel_name_reserved _ "FREE agent" "o" none none none (by decide)

end PlayerBot
